import Mathlib

/-!
Verification of `adjust_score.c`: a fixed-width (21-byte) record store mapping
player names to integer scores, with a find-or-append update operation.

The C program is shallowly embedded: byte buffers and file contents are
`List Nat` (byte values), C strings are lists of nonzero bytes, machine
integers are `Int` with the relevant bounds made explicit, and the fallible
I/O primitives (`fopen`, `fseek`, `fwrite`) consult an explicit fault
schedule so that every error path of the C code is a reachable path of the
model.  All definitions follow the corresponding C functions and keep their
names.
-/

/-- C `INT_MAX` for 32-bit `int`. -/
def INT_MAX : Int := 2147483647

/-- C `INT_MIN` for 32-bit `int`; used by `get_score` as its error sentinel. -/
def INT_MIN : Int := -2147483648

/-- C `LONG_MAX` for 64-bit `long`. -/
def LONG_MAX : Int := 9223372036854775807

/-- C `LONG_MIN` for 64-bit `long`. -/
def LONG_MIN : Int := -9223372036854775808

/-- `SCORE_LOW_BOUND` from the source: lowest score representable in the
10-character score field including the minus sign. -/
def SCORE_LOW_BOUND : Int := -999999999

/-- C `isspace` in the default locale: space (32) and the control
characters 9 to 13 (tab, newline, vertical tab, form feed, carriage return). -/
def isspaceB (c : Nat) : Bool := c = 32 || (9 ≤ c && c ≤ 13)

/-- Decimal digit test, as used by `strtol` with base 10. -/
def isDigitB (c : Nat) : Bool := 48 ≤ c && c ≤ 57

/-- Value of a list of ASCII decimal digit bytes, most significant first. -/
def digitsToInt (l : List Nat) : Nat :=
  l.foldl (fun a d => a * 10 + (d - 48)) 0

/-- Fuel-indexed decimal rendering of a natural number (ASCII bytes,
most significant digit first).  The fuel only drives structural recursion;
`natDigits` supplies enough of it. -/
def natDigitsAux : Nat → Nat → List Nat
  | 0, _ => []
  | fuel + 1, n => if n < 10 then [48 + n] else natDigitsAux fuel (n / 10) ++ [48 + n % 10]

/-- Decimal ASCII rendering of a natural number. -/
def natDigits (n : Nat) : List Nat := natDigitsAux (n + 1) n

/-- The byte string produced by `printf`-style `"%d"` for an integer. -/
def intToDecimal (n : Int) : List Nat :=
  if n < 0 then 45 :: natDigits (-n).toNat else natDigits n.toNat

/-- Model of C `strtol(s, &endptr, 10)` on a C string (list of nonzero
bytes): skip leading whitespace, read an optional sign and a run of decimal
digits, clamp to `long` range setting the `ERANGE` flag.  Returns
`(value, bytes after the parsed prefix, erange)`.  When no digits are
consumed, `endptr` is the original string and the value is `0`. -/
def strtol10 (s : List Nat) : Int × List Nat × Bool :=
  let s1 := s.dropWhile isspaceB
  let sign : Int := if s1.headD 0 = 45 then -1 else 1
  let s2 := if s1.headD 0 = 45 || s1.headD 0 = 43 then s1.tail else s1
  let digs := s2.takeWhile isDigitB
  let rest := s2.dropWhile isDigitB
  if digs = [] then (0, s, false)
  else
    let v : Int := sign * (digitsToInt digs : Int)
    if v > LONG_MAX then (LONG_MAX, rest, true)
    else if v < LONG_MIN then (LONG_MIN, rest, true)
    else (v, rest, false)

/-- The `score_errno` enumeration of the source. -/
inductive ScoreErrno
  | valid
  | overflow
  | underflow
  | invalid
deriving DecidableEq, Repr

/-- Model of `score_strtol(&score, score_line)`: the returned pair is the
classification together with the out-parameter `*score` (left at its
initial value `score0` unless the parse is valid).  The checks appear in
source order: empty or whitespace-led input is invalid, then the parsed
value is range-checked, and only then is trailing garbage rejected. -/
def score_strtol (score0 : Int) (scoreLine : List Nat) : ScoreErrno × Int :=
  if scoreLine.headD 0 = 0 || isspaceB (scoreLine.headD 0) then (.invalid, score0)
  else
    let r := strtol10 scoreLine
    if r.1 > INT_MAX ∨ (r.2.2 = true ∧ r.1 = LONG_MAX) then (.overflow, score0)
    else if r.1 < SCORE_LOW_BOUND ∨ (r.2.2 = true ∧ r.1 = LONG_MIN) then (.underflow, score0)
    else if r.2.1 ≠ [] then (.invalid, score0)
    else (.valid, r.1)

/-- Model of `get_score(line_buf)`: requires the newline at byte 20, copies
bytes 10–20 into a local buffer whose byte 10 is overwritten with `NUL`, so
the C string handed to `score_strtol` is bytes 10–19 truncated at the first
`NUL`.  Returns `INT_MIN` on any failure, the decoded score otherwise. -/
def get_score (lineBuf : List Nat) : Int :=
  if lineBuf.getD 20 0 ≠ 10 then INT_MIN
  else
    let score := ((lineBuf.drop 10).take 10).takeWhile (fun b => b ≠ 0)
    let r := score_strtol 0 score
    if r.1 ≠ ScoreErrno.valid then INT_MIN else r.2

/-- Model of C `strncmp` restricted to the sign-irrelevant part: compares
byte lists (already cut to the length bound) until a mismatch or a `NUL`. -/
def strncmpAux : List Nat → List Nat → Int
  | [], _ => 0
  | _, [] => 0
  | a :: as, b :: bs =>
    if a ≠ b then (a : Int) - (b : Int)
    else if a = 0 then 0 else strncmpAux as bs

/-- C `strncmp(a, b, n)` on buffers modelled as byte lists. -/
def strncmp (a b : List Nat) (n : Nat) : Int := strncmpAux (a.take n) (b.take n)

/-- The local `name_in_line` buffer of `match_name`: 10 zeroed bytes, the
first 10 bytes of the line copied in, byte 9 forced to `NUL`. -/
def nameInLineBuf (lineBuf : List Nat) : List Nat :=
  (lineBuf.take 10 ++ List.replicate (10 - min lineBuf.length 10) 0).set 9 0

/-- The C-string content of `match_name`'s `name_in_line` buffer: the name
field of a record, trimmed at the first `NUL`.  This is the name decoder the
scanner applies to a candidate line. -/
def name_in_line (lineBuf : List Nat) : List Nat :=
  (nameInLineBuf lineBuf).takeWhile (fun b => b ≠ 0)

/-- Model of `match_name(player_name, line_buf)`: requires `NUL` at byte 9
of the line, then compares the caller's 10-byte name buffer against the
copied name field with `strncmp(.., .., 10)`. -/
def match_name (playerName lineBuf : List Nat) : Nat :=
  if lineBuf.getD 9 0 ≠ 0 then 0
  else if strncmp playerName (nameInLineBuf lineBuf) 10 ≠ 0 then 0
  else 1

/-- Model of `check_sum(old, new)`: the sum is formed in `long` (exact
integer arithmetic for `int` inputs) and tested against `INT_MAX` and
`SCORE_LOW_BOUND`. -/
def check_sum (old new : Int) : Nat :=
  let sum := old + new
  if sum > INT_MAX then 0
  else if sum < SCORE_LOW_BOUND then 0
  else 1

/-- The 11-byte `score_string` buffer of `write_score` after
`snprintf(score_string, 11, "%d", score)` into a zeroed buffer and
`score_string[10] = newline`: the decimal rendering truncated to 10 bytes,
`NUL`-padded to 10 bytes, then the newline. -/
def score_string_bytes (score : Int) : List Nat :=
  let sdec := intToDecimal score
  sdec.take 10 ++ List.replicate (10 - min sdec.length 10) 0 ++ [10]

/-- The 21 bytes `write_score` emits for a 10-byte name buffer and a score:
the name buffer followed by the score field and newline. -/
def encode_record (nameBuf : List Nat) (score : Int) : List Nat :=
  nameBuf.take 10 ++ score_string_bytes score

/-- `fseek` whence selector. -/
inductive Whence
  | set
  | cur
  | end_
deriving DecidableEq, Repr

/-- State of the open scores file: its contents, the stream position, and
the schedule of injected I/O faults (each fallible primitive consumes one
entry; an exhausted schedule means no further faults). -/
structure FileState where
  contents : List Nat
  pos : Nat
  faults : List Bool
deriving DecidableEq, Repr

/-- Consume the next fault-schedule entry (`true` = the operation fails);
an exhausted schedule yields `false` (no fault) and leaves the state as is. -/
def popFault (st : FileState) : Bool × FileState :=
  (st.faults.headD false, { st with faults := st.faults.tail })

/-- Model of `fseek(fp, offset, whence)`: may fail per the fault schedule;
on success repositions the stream.  Call sites never seek before the start
of the file, so the `Int.toNat` clamp is never exercised. -/
def fseek (st : FileState) (offset : Int) (whence : Whence) : Bool × FileState :=
  let p := popFault st
  if p.1 then (false, p.2)
  else
    let base : Int :=
      match whence with
      | .set => 0
      | .cur => p.2.pos
      | .end_ => p.2.contents.length
    (true, { p.2 with pos := (base + offset).toNat })

/-- Overwrite `data.length` bytes of `contents` at byte offset `pos`
(extending the file when writing at its end).  Call sites keep
`pos ≤ contents.length`. -/
def writeAt (contents : List Nat) (pos : Nat) (data : List Nat) : List Nat :=
  contents.take pos ++ data ++ contents.drop (pos + data.length)

/-- Model of a single `fwrite(buf, n, 1, fp)` of the byte list `data`: may
fail per the fault schedule (writing nothing); on success writes all bytes
at the current position and advances it. -/
def fwrite (st : FileState) (data : List Nat) : Bool × FileState :=
  let p := popFault st
  if p.1 then (false, p.2)
  else (true, { p.2 with contents := writeAt p.2.contents p.2.pos data,
                         pos := p.2.pos + data.length })

/-- Split a byte stream into the successive lines `getline` returns: each
line runs up to and including a newline byte; a final newline-less chunk is
its own line.  `cur` holds the bytes of the current line, reversed. -/
def splitLinesAux : List Nat → List Nat → List (List Nat)
  | cur, [] => if cur = [] then [] else [cur.reverse]
  | cur, b :: rest =>
    if b = 10 then (b :: cur).reverse :: splitLinesAux [] rest
    else splitLinesAux (b :: cur) rest

/-- The sequence of lines `getline` yields when reading the whole stream. -/
def splitLines (bytes : List Nat) : List (List Nat) := splitLinesAux [] bytes

/-- Model of `write_score(fp, player_name, score, file_pos, offset)`:
renders the score (the `snprintf < 0` guard of the source can never fire
for `"%d"`), seeks, then writes the 10 name bytes and the 11 score-field
bytes as two `fwrite` calls.  Returns `1` on success, `0` on any failure. -/
def write_score (st : FileState) (playerName : List Nat) (score : Int)
    (whence : Whence) (offset : Int) : Nat × FileState :=
  if ((intToDecimal score).length : Int) < 0 then (0, st)
  else
    let sk := fseek st offset whence
    if sk.1 = false then (0, sk.2)
    else
      let w1 := fwrite sk.2 (playerName.take 10)
      if w1.1 = false then (0, w1.2)
      else
        let w2 := fwrite w1.2 (score_string_bytes score)
        if w2.1 = false then (0, w2.2)
        else (1, w2.2)

/-- The `getline` loop of `find_record`, iterating over the lines of the
file with the stream position advanced past each line as it is read.
Returns the source's `int` result (`1` found-and-written, `0` not found,
`-1` error) with the file state. -/
def findLoop (playerName : List Nat) (scoreToAdd : Int) :
    FileState → List (List Nat) → Int × FileState
  | st, [] => (0, st)
  | st, line :: rest =>
    let st1 : FileState := ⟨st.contents, st.pos + line.length, st.faults⟩
    if line.length ≠ 21 then findLoop playerName scoreToAdd st1 rest
    else if match_name playerName line = 1 then
      let cur := get_score line
      if cur = INT_MIN then (-1, st1)
      else if check_sum cur scoreToAdd = 1 then
        let wr := write_score st1 playerName (cur + scoreToAdd) Whence.cur (-21)
        if wr.1 ≠ 1 then (-1, wr.2) else (1, wr.2)
      else (-1, st1)
    else findLoop playerName scoreToAdd st1 rest

/-- Model of `find_record(fp, player_name, score_to_add)`: rewind to the
start of the file (an `fseek` failure yields `-1`), then run the scan-and
-rewrite loop over the file's lines. -/
def find_record (playerName : List Nat) (scoreToAdd : Int) (st : FileState) :
    Int × FileState :=
  let sk := fseek st 0 Whence.set
  if sk.1 = false then (-1, sk.2)
  else findLoop playerName scoreToAdd sk.2 (splitLines sk.2.contents)

/-- Model of `validate_name(player_name)` on a C string: rejects length
greater than 10 and any whitespace byte. -/
def validate_name (playerName : List Nat) : Nat :=
  if playerName.length > 10 then 0
  else if playerName.any isspaceB then 0
  else 1

/-- The `name_to_search` buffer of `adjust_score`: 10 zeroed bytes,
`strncpy` of the player name (copying at most 10 bytes, `NUL`-padding short
names), byte 9 forced to `NUL`. -/
def strncpy10 (s : List Nat) : List Nat :=
  (s.take 10 ++ List.replicate (10 - min s.length 10) 0).set 9 0

/-- Model of `handle_message(error)`: allocates and returns a copy of the
error string (every message fits the 40-byte buffer, so the copy is
faithful). -/
def handle_message (error : String) : String := error

/-- Observable outcome of one `adjust_score` call: the returned `int`, the
message left in `*message` (if any), the resulting file contents, and
whether the file was opened and closed. -/
structure AdjustOut where
  ret : Nat
  message : Option String
  file : List Nat
  opened : Bool
  closed : Bool
deriving DecidableEq, Repr

/-- Model of `adjust_score(uid, player_name, score_to_add, message)`.
`openOk` stands for the success of `fopen(FILENAME, "r+")`; `faults` is the
fault schedule threaded through the file primitives.  The `seteuid` calls
of the source are commented out there and therefore absent here, and the
`strncpy` null-return check is dead code (`strncpy` returns its first
argument). -/
def adjust_score (playerName : List Nat) (scoreToAdd : Int) (openOk : Bool)
    (faults : List Bool) (file : List Nat) : AdjustOut :=
  if validate_name playerName ≠ 1 then
    ⟨0, some (handle_message "Player name invalid\n"), file, false, false⟩
  else if openOk = false then
    ⟨0, some (handle_message "File open error"), file, false, false⟩
  else
    let nameToSearch := strncpy10 playerName
    let fr := find_record nameToSearch scoreToAdd ⟨file, 0, faults⟩
    if fr.1 = -1 then
      ⟨0, some (handle_message "Error found in record\n"), fr.2.contents, true, true⟩
    else if fr.1 = 0 then
      let sk := fseek fr.2 0 Whence.end_
      if sk.1 = false then
        ⟨0, some (handle_message "File seek error\n"), sk.2.contents, true, true⟩
      else
        let wr := write_score sk.2 nameToSearch scoreToAdd Whence.end_ 0
        if wr.1 ≠ 1 then
          ⟨0, some (handle_message "Error writing new record\n"), wr.2.contents, true, true⟩
        else ⟨1, none, wr.2.contents, true, true⟩
    else ⟨1, none, fr.2.contents, true, true⟩

/-- Read-only outcome of the scan: the first 21-byte line whose name field
matches either decodes (`found`), fails to decode (`corrupt`), or no line
matches (`notFound`). -/
inductive ScanOut
  | found (s : Int)
  | corrupt
  | notFound
deriving DecidableEq, Repr

/-- The pure decision structure of `findLoop`: what the scan concludes
about a list of lines, with no file state and no writes. -/
def scanLines (playerName : List Nat) : List (List Nat) → ScanOut
  | [] => .notFound
  | line :: rest =>
    if line.length ≠ 21 then scanLines playerName rest
    else if match_name playerName line = 1 then
      if get_score line = INT_MIN then .corrupt else .found (get_score line)
    else scanLines playerName rest

/-- What the scan concludes about a whole file. -/
def scan_score (playerName file : List Nat) : ScanOut :=
  scanLines playerName (splitLines file)

/-- The byte string `"alice"`. -/
def aliceName : List Nat := [97, 108, 105, 99, 101]

/-- The 10-byte `NUL`-padded name field for `"alice"`. -/
def aliceField : List Nat := [97, 108, 105, 99, 101, 0, 0, 0, 0, 0]

/-- A one-record file for `"alice"` whose score field is `"100"` padded
with `NUL` bytes, as this program's own writes produce. -/
def aliceFile100 : List Nat := aliceField ++ [49, 48, 48, 0, 0, 0, 0, 0, 0, 0, 10]

/-- A one-record file for `"alice"` whose score field is `"100"` padded
with seven spaces, as the spec's scenario renders it. -/
def aliceFile100Spaces : List Nat :=
  aliceField ++ [49, 48, 48, 32, 32, 32, 32, 32, 32, 32, 10]

/-- A one-record file for `"alice"` with score field `"2147483647"`. -/
def aliceFileMax : List Nat := aliceField ++ [50, 49, 52, 55, 52, 56, 51, 54, 52, 55, 10]

/-- A one-record file for `"alice"` whose score field is the non-numeric
`"abc"`. -/
def aliceFileCorrupt : List Nat := aliceField ++ [97, 98, 99, 0, 0, 0, 0, 0, 0, 0, 10]

/-- The byte string `"bob"`. -/
def bobName : List Nat := [98, 111, 98]

/-! ### Decimal rendering lemmas -/

/-- Appending one digit multiplies the accumulated value by ten. -/
theorem digitsToInt_append (l : List Nat) (d : Nat) :
    digitsToInt (l ++ [d]) = digitsToInt l * 10 + (d - 48) := by
  simp [digitsToInt, List.foldl_append]

/-- `natDigitsAux` is a correct decimal rendering whenever the fuel exceeds
the number. -/
theorem natDigitsAux_toInt : ∀ fuel n, n < fuel → digitsToInt (natDigitsAux fuel n) = n := by
  intro fuel
  induction fuel with
  | zero => intro n h; omega
  | succ fuel ih =>
    intro n h
    unfold natDigitsAux
    by_cases h10 : n < 10
    · simp only [h10, if_true]
      simp [digitsToInt]
    · have hdiv : n / 10 < n := Nat.div_lt_self (by omega) (by omega)
      simp only [h10, if_false]
      rw [digitsToInt_append, ih (n / 10) (by omega)]
      omega

/-- Every byte emitted by `natDigitsAux` is an ASCII digit. -/
theorem natDigitsAux_mem : ∀ fuel n, n < fuel → ∀ d ∈ natDigitsAux fuel n, 48 ≤ d ∧ d ≤ 57 := by
  intro fuel
  induction fuel with
  | zero => intro n h; omega
  | succ fuel ih =>
    intro n h d hd
    unfold natDigitsAux at hd
    by_cases h10 : n < 10
    · simp only [h10, if_true, List.mem_singleton] at hd
      omega
    · have hdiv : n / 10 < n := Nat.div_lt_self (by omega) (by omega)
      simp only [h10, if_false, List.mem_append, List.mem_singleton] at hd
      rcases hd with hd | hd
      · exact ih (n / 10) (by omega) d hd
      · have := Nat.mod_lt n (show 0 < 10 by omega)
        omega

/-- `natDigitsAux` emits at most `k` digits for numbers below `10 ^ k`. -/
theorem natDigitsAux_length : ∀ fuel n k, n < fuel → n < 10 ^ k → 0 < k →
    (natDigitsAux fuel n).length ≤ k := by
  intro fuel
  induction fuel with
  | zero => intro n k h; omega
  | succ fuel ih =>
    intro n k h hpow hk
    unfold natDigitsAux
    by_cases h10 : n < 10
    · simp only [h10, if_true, List.length_singleton]
      omega
    · have hdiv : n / 10 < n := Nat.div_lt_self (by omega) (by omega)
      have hk2 : 2 ≤ k := by
        by_contra hlt
        have hk1 : k = 1 := by omega
        rw [hk1] at hpow
        simp at hpow
        omega
      have hsub : n / 10 < 10 ^ (k - 1) := by
        rw [Nat.div_lt_iff_lt_mul (by omega : 0 < 10)]
        have : 10 ^ (k - 1) * 10 = 10 ^ k := by
          rw [← pow_succ]
          congr 1
          omega
        omega
      have := ih (n / 10) (k - 1) (by omega) hsub (by omega)
      simp only [h10, if_false, List.length_append, List.length_singleton]
      omega

/-- `natDigits` renders and re-reads to the same number. -/
theorem natDigits_toInt (n : Nat) : digitsToInt (natDigits n) = n :=
  natDigitsAux_toInt _ _ (Nat.lt_succ_self n)

/-- Every byte of `natDigits n` is an ASCII digit. -/
theorem natDigits_mem (n : Nat) : ∀ d ∈ natDigits n, 48 ≤ d ∧ d ≤ 57 :=
  natDigitsAux_mem _ _ (Nat.lt_succ_self n)

/-- Digit-count bound for `natDigits`. -/
theorem natDigits_length (n k : Nat) (h : n < 10 ^ k) (hk : 0 < k) :
    (natDigits n).length ≤ k :=
  natDigitsAux_length _ _ _ (Nat.lt_succ_self n) h hk

/-- `natDigits` never returns the empty list. -/
theorem natDigits_ne_nil (n : Nat) : natDigits n ≠ [] := by
  unfold natDigits natDigitsAux
  by_cases h10 : n < 10 <;> simp [h10]

/-! ### List helper lemmas -/

/-- `takeWhile` walks through a prefix on which the predicate holds. -/
theorem takeWhile_append_all (p : Nat → Bool) (l r : List Nat)
    (h : ∀ b ∈ l, p b = true) :
    (l ++ r).takeWhile p = l ++ r.takeWhile p := by
  induction l with
  | nil => simp
  | cons a l ih =>
    have ha : p a = true := h a (by simp)
    simp only [List.cons_append, List.takeWhile_cons, ha, if_true]
    rw [ih (fun b hb => h b (by simp [hb]))]

/-- `dropWhile` discards a prefix on which the predicate holds. -/
theorem dropWhile_append_all (p : Nat → Bool) (l r : List Nat)
    (h : ∀ b ∈ l, p b = true) :
    (l ++ r).dropWhile p = r.dropWhile p := by
  induction l with
  | nil => simp
  | cons a l ih =>
    have ha : p a = true := h a (by simp)
    simp only [List.cons_append, List.dropWhile_cons, ha, if_true]
    exact ih (fun b hb => h b (by simp [hb]))

/-- `takeWhile` keeps a list the predicate accepts throughout. -/
theorem takeWhile_all (p : Nat → Bool) (l : List Nat) (h : ∀ b ∈ l, p b = true) :
    l.takeWhile p = l := by
  have := takeWhile_append_all p l [] h
  simpa using this

/-- `dropWhile` erases a list the predicate accepts throughout. -/
theorem dropWhile_all (p : Nat → Bool) (l : List Nat) (h : ∀ b ∈ l, p b = true) :
    l.dropWhile p = [] := by
  have := dropWhile_append_all p l [] h
  simpa using this

/-- `takeWhile (· ≠ 0)` of a zero-filled buffer is empty. -/
theorem takeWhile_replicate_zero (k : Nat) :
    (List.replicate k 0).takeWhile (fun b => b ≠ 0) = [] := by
  cases k with
  | zero => rfl
  | succ k => simp [List.replicate_succ, List.takeWhile_cons]

/-! ### Parser round-trip lemmas -/

/-- Bytes of a `"%d"` rendering: a minus sign or an ASCII digit. -/
theorem intToDecimal_mem (v : Int) :
    ∀ b ∈ intToDecimal v, b = 45 ∨ (48 ≤ b ∧ b ≤ 57) := by
  intro b hb
  unfold intToDecimal at hb
  by_cases hneg : v < 0
  · simp only [hneg, if_true, List.mem_cons] at hb
    rcases hb with hb | hb
    · exact Or.inl hb
    · exact Or.inr (natDigits_mem _ b hb)
  · simp only [hneg, if_false] at hb
    exact Or.inr (natDigits_mem _ b hb)

/-- A `"%d"` rendering is never empty. -/
theorem intToDecimal_ne_nil (v : Int) : intToDecimal v ≠ [] := by
  unfold intToDecimal
  by_cases hneg : v < 0 <;> simp [hneg, natDigits_ne_nil]

/-- A score in `[SCORE_LOW_BOUND, INT_MAX]` renders in at most 10 bytes. -/
theorem intToDecimal_length_le (v : Int) (hlo : SCORE_LOW_BOUND ≤ v) (hhi : v ≤ INT_MAX) :
    (intToDecimal v).length ≤ 10 := by
  simp only [SCORE_LOW_BOUND] at hlo
  simp only [INT_MAX] at hhi
  unfold intToDecimal
  by_cases hneg : v < 0
  · have hbound : (-v).toNat < 10 ^ 9 := by omega
    have := natDigits_length (-v).toNat 9 hbound (by omega)
    simp only [hneg, if_true, List.length_cons]
    omega
  · have hbound : v.toNat < 10 ^ 10 := by omega
    have := natDigits_length v.toNat 10 hbound (by omega)
    simp only [hneg, if_false]
    exact this

/-- `strtol` of a nonempty all-digit string: the digits' value, no
remainder, no range error (provided the value fits in `long`). -/
theorem strtol10_digits (d : Nat) (tl : List Nat)
    (hdig : ∀ b ∈ d :: tl, 48 ≤ b ∧ b ≤ 57)
    (hbound : (digitsToInt (d :: tl) : Int) ≤ LONG_MAX) :
    strtol10 (d :: tl) = ((digitsToInt (d :: tl) : Int), [], false) := by
  have hd : 48 ≤ d ∧ d ≤ 57 := hdig d (by simp)
  have hdigsB : ∀ b ∈ d :: tl, isDigitB b = true := by
    intro b hb
    have := hdig b hb
    simp only [isDigitB, Bool.and_eq_true, decide_eq_true_eq]
    omega
  have hsp : isspaceB d = false := by
    simp only [isspaceB, Bool.or_eq_false_iff, Bool.and_eq_false_iff]
    constructor
    · simp only [decide_eq_false_iff_not]; omega
    · right; simp only [decide_eq_false_iff_not]; omega
  simp only [strtol10, List.dropWhile_cons, hsp, Bool.false_eq_true, if_false]
  simp only [List.headD_cons]
  rw [if_neg (by omega : ¬ d = 45)]
  rw [if_neg (by simp only [Bool.or_eq_true, decide_eq_true_eq]; omega :
    ¬ ((d = 45 || d = 43) = true))]
  rw [takeWhile_all _ _ hdigsB, dropWhile_all _ _ hdigsB]
  rw [if_neg (by simp : ¬ (d :: tl = []))]
  rw [one_mul]
  rw [if_neg (by omega : ¬ (digitsToInt (d :: tl) : Int) > LONG_MAX)]
  rw [if_neg (by
    have : (0:Int) ≤ (digitsToInt (d :: tl) : Int) := Int.natCast_nonneg _
    simp only [LONG_MIN]
    omega : ¬ (digitsToInt (d :: tl) : Int) < LONG_MIN)]

/-- `strtol` of a minus sign followed by digits: the negated value, no
remainder, no range error (provided the value fits in `long`). -/
theorem strtol10_neg_digits (d : Nat) (tl : List Nat)
    (hdig : ∀ b ∈ d :: tl, 48 ≤ b ∧ b ≤ 57)
    (hbound : LONG_MIN ≤ -(digitsToInt (d :: tl) : Int)) :
    strtol10 (45 :: d :: tl) = (-(digitsToInt (d :: tl) : Int), [], false) := by
  have hd : 48 ≤ d ∧ d ≤ 57 := hdig d (by simp)
  have hdigsB : ∀ b ∈ d :: tl, isDigitB b = true := by
    intro b hb
    have := hdig b hb
    simp only [isDigitB, Bool.and_eq_true, decide_eq_true_eq]
    omega
  have hsp : isspaceB 45 = false := by decide
  simp only [strtol10, List.dropWhile_cons, hsp, Bool.false_eq_true, if_false]
  simp only [List.headD_cons]
  norm_num
  have hdd : isDigitB d = true := hdigsB d (by simp)
  rw [if_neg (by simp [hdd] : ¬ isDigitB d = false)]
  rw [takeWhile_all _ _ hdigsB, dropWhile_all _ _ hdigsB]
  rw [if_neg (by
    have : (0:Int) ≤ (digitsToInt (d :: tl) : Int) := Int.natCast_nonneg _
    simp only [LONG_MAX]
    omega : ¬ LONG_MAX < -(digitsToInt (d :: tl) : Int))]
  rw [if_neg (not_lt.mpr hbound)]

/-- `strtol` reads back exactly what `"%d"` rendered, for scores in range. -/
theorem strtol10_intToDecimal (v : Int) (hlo : SCORE_LOW_BOUND ≤ v) (hhi : v ≤ INT_MAX) :
    strtol10 (intToDecimal v) = (v, [], false) := by
  by_cases hneg : v < 0
  · obtain ⟨d, tl, hd⟩ := List.exists_cons_of_ne_nil (natDigits_ne_nil (-v).toNat)
    have h1 : intToDecimal v = 45 :: d :: tl := by
      rw [intToDecimal, if_pos hneg, hd]
    have hmem : ∀ b ∈ d :: tl, 48 ≤ b ∧ b ≤ 57 := hd ▸ natDigits_mem (-v).toNat
    have hval : (digitsToInt (d :: tl) : Int) = -v := by
      rw [← hd, natDigits_toInt]; omega
    rw [h1, strtol10_neg_digits d tl hmem (by
      rw [hval]
      simp only [LONG_MIN]
      simp only [SCORE_LOW_BOUND] at hlo
      omega), hval, neg_neg]
  · obtain ⟨d, tl, hd⟩ := List.exists_cons_of_ne_nil (natDigits_ne_nil v.toNat)
    have h1 : intToDecimal v = d :: tl := by
      rw [intToDecimal, if_neg hneg, hd]
    have hmem : ∀ b ∈ d :: tl, 48 ≤ b ∧ b ≤ 57 := hd ▸ natDigits_mem v.toNat
    have hval : (digitsToInt (d :: tl) : Int) = v := by
      rw [← hd, natDigits_toInt]; omega
    rw [h1, strtol10_digits d tl hmem (by
      rw [hval]
      simp only [LONG_MAX]
      simp only [INT_MAX] at hhi
      omega), hval]

/-- `score_strtol` on a string that `strtol` fully parses to an in-range
value: valid, with the value stored. -/
theorem score_strtol_of_strtol (s0 : Int) (s : List Nat) (v : Int)
    (hne : s.headD 0 ≠ 0) (hns : isspaceB (s.headD 0) = false)
    (hstr : strtol10 s = (v, [], false))
    (hlo : SCORE_LOW_BOUND ≤ v) (hhi : v ≤ INT_MAX) :
    score_strtol s0 s = (.valid, v) := by
  rw [List.headD_eq_head?_getD] at hne hns
  have hguard : ¬ ((decide (s.headD 0 = 0) || isspaceB (s.headD 0)) = true) := by
    simp only [Bool.or_eq_true, decide_eq_true_eq, not_or, List.headD_eq_head?_getD]
    exact ⟨hne, by simp [hns]⟩
  simp only [score_strtol, hstr]
  rw [if_neg hguard]
  rw [if_neg (by
    simp only [INT_MAX] at hhi ⊢
    simp only [Bool.false_eq_true, false_and, or_false]
    omega)]
  rw [if_neg (by
    simp only [SCORE_LOW_BOUND] at hlo ⊢
    simp only [Bool.false_eq_true, false_and, or_false]
    omega)]
  rw [if_neg (by simp)]

/-- The score parser reads back exactly what `"%d"` rendered, for scores in
range: the round trip of the score codec at the string level. -/
theorem score_strtol_intToDecimal (s0 v : Int)
    (hlo : SCORE_LOW_BOUND ≤ v) (hhi : v ≤ INT_MAX) :
    score_strtol s0 (intToDecimal v) = (.valid, v) := by
  obtain ⟨c, cs, hc⟩ := List.exists_cons_of_ne_nil (intToDecimal_ne_nil v)
  have hcmem : c = 45 ∨ (48 ≤ c ∧ c ≤ 57) :=
    intToDecimal_mem v c (by rw [hc]; simp)
  have hne : (intToDecimal v).headD 0 ≠ 0 := by
    rw [hc, List.headD_cons]
    rcases hcmem with h | h <;> omega
  have hns : isspaceB ((intToDecimal v).headD 0) = false := by
    rw [hc, List.headD_cons]
    simp only [isspaceB, Bool.or_eq_false_iff, Bool.and_eq_false_iff]
    rcases hcmem with h | h
    · subst h; constructor
      · simp only [decide_eq_false_iff_not]; omega
      · right; simp only [decide_eq_false_iff_not]; omega
    · constructor
      · simp only [decide_eq_false_iff_not]; omega
      · right; simp only [decide_eq_false_iff_not]; omega
  exact score_strtol_of_strtol s0 _ v hne hns (strtol10_intToDecimal v hlo hhi) hlo hhi

/-! ### Record codec lemmas -/

/-- Setting an entry to the value it already has changes nothing. -/
theorem set_same (l : List Nat) (n : Nat) (hn : l[n]? = some 0) : l.set n 0 = l := by
  have h : n < l.length := by
    by_contra hc
    rw [List.getElem?_eq_none (by omega)] at hn
    simp at hn
  apply List.ext_getElem?
  intro i
  by_cases hi : i = n
  · subst hi
    rw [List.getElem?_set_self']
    simp [hn]
  · rw [List.getElem?_set_ne (by omega)]

/-- For a score that renders in at most 10 bytes, the `score_string` buffer
is the rendering, `NUL` padding, and the newline. -/
theorem score_string_bytes_eq (v : Int) (h : (intToDecimal v).length ≤ 10) :
    score_string_bytes v =
      intToDecimal v ++ List.replicate (10 - (intToDecimal v).length) 0 ++ [10] := by
  simp only [score_string_bytes]
  rw [List.take_of_length_le h, Nat.min_eq_left h]

/-- The score field plus newline is always written as exactly 11 bytes. -/
theorem score_string_bytes_length (v : Int) (h : (intToDecimal v).length ≤ 10) :
    (score_string_bytes v).length = 11 := by
  rw [score_string_bytes_eq v h]
  simp
  omega

/-- Decoding the score field of an encoded record recovers the score, for
any 10-byte name field and any score in `[SCORE_LOW_BOUND, INT_MAX]`. -/
theorem get_score_encode (pre : List Nat) (v : Int) (hpre : pre.length = 10)
    (hlo : SCORE_LOW_BOUND ≤ v) (hhi : v ≤ INT_MAX) :
    get_score (pre ++ score_string_bytes v) = v := by
  have hL := intToDecimal_length_le v hlo hhi
  have hmem0 : ∀ b ∈ intToDecimal v, (fun b => (decide (b ≠ 0))) b = true := by
    intro b hb
    have hmem := intToDecimal_mem v b hb
    have hb0 : b ≠ 0 := by rcases hmem with h | h <;> omega
    simpa using hb0
  have hAlen :
      (intToDecimal v ++ List.replicate (10 - (intToDecimal v).length) 0).length = 10 := by
    simp
    omega
  have hfull : pre ++ score_string_bytes v =
      (pre ++ (intToDecimal v ++ List.replicate (10 - (intToDecimal v).length) 0)) ++ [10] := by
    rw [score_string_bytes_eq v hL]
    simp [List.append_assoc]
  have hlen20 :
      (pre ++ (intToDecimal v ++ List.replicate (10 - (intToDecimal v).length) 0)).length
        = 20 := by
    simp [hpre]
    omega
  have h20 :
      ((pre ++ (intToDecimal v ++ List.replicate (10 - (intToDecimal v).length) 0)) ++
        [10]).getD 20 0 = 10 := by
    rw [List.getD_eq_getElem?_getD, List.getElem?_append_right (le_of_eq hlen20), hlen20]
    rfl
  have hdrop :
      ((pre ++ (intToDecimal v ++ List.replicate (10 - (intToDecimal v).length) 0)) ++
        [10]).drop 10 =
      (intToDecimal v ++ List.replicate (10 - (intToDecimal v).length) 0) ++ [10] := by
    rw [List.append_assoc, List.drop_left' hpre]
  have htake :
      ((intToDecimal v ++ List.replicate (10 - (intToDecimal v).length) 0) ++ [10]).take 10 =
      intToDecimal v ++ List.replicate (10 - (intToDecimal v).length) 0 :=
    List.take_left' hAlen
  have hTW :
      (intToDecimal v ++
        List.replicate (10 - (intToDecimal v).length) 0).takeWhile (fun b => b ≠ 0) =
      intToDecimal v := by
    rw [takeWhile_append_all _ _ _ hmem0, takeWhile_replicate_zero, List.append_nil]
  unfold get_score
  rw [hfull]
  rw [if_neg (not_not_intro h20)]
  simp only [hdrop, htake, hTW, score_strtol_intToDecimal 0 v hlo hhi]
  simp

/-- The buffer written as the name field is always 10 bytes long. -/
theorem strncpy10_length (s : List Nat) : (strncpy10 s).length = 10 := by
  unfold strncpy10
  simp
  omega

/-- For a name of at most 9 bytes, `strncpy` into the zeroed 10-byte buffer
gives the name followed by `NUL` padding (the forced `NUL` at byte 9 is
already there). -/
theorem strncpy10_small (s : List Nat) (h : s.length ≤ 9) :
    strncpy10 s = s ++ List.replicate (10 - s.length) 0 := by
  unfold strncpy10
  rw [List.take_of_length_le (by omega), Nat.min_eq_left (by omega)]
  apply set_same
  rw [List.getElem?_append_right (by omega)]
  rw [List.getElem?_replicate]
  simp only [if_pos (by omega : 9 - s.length < 10 - s.length)]

/-- For a name of 10 or more bytes, the `name_to_search` buffer is the
first 9 bytes of the name followed by the forced `NUL`: silent truncation. -/
theorem strncpy10_truncates (s : List Nat) (h : 10 ≤ s.length) :
    strncpy10 s = s.take 9 ++ [0] := by
  unfold strncpy10
  rw [Nat.min_eq_right (by omega)]
  simp only [Nat.sub_self, List.replicate_zero, List.append_nil]
  rw [List.set_eq_take_append_cons_drop]
  rw [if_pos (by simp; omega)]
  have : (s.take 10).drop 10 = [] := by
    apply List.drop_of_length_le
    simp
  rw [this, List.take_take]
  norm_num

/-- For a line of at least 10 bytes the scanner's name buffer is the line's
first 10 bytes with byte 9 forced to `NUL`. -/
theorem nameInLineBuf_long (l : List Nat) (h : 10 ≤ l.length) :
    nameInLineBuf l = (l.take 10).set 9 0 := by
  unfold nameInLineBuf
  rw [Nat.min_eq_right h]
  simp

/-- The scanner's name buffer for a line beginning with a 10-byte field. -/
theorem nameInLineBuf_of_field (nameBuf tail : List Nat) (h : nameBuf.length = 10) :
    nameInLineBuf (nameBuf ++ tail) = nameBuf.set 9 0 := by
  rw [nameInLineBuf_long _ (by rw [List.length_append, h]; omega)]
  rw [List.take_left' h]

/-- Re-forcing the `NUL` at byte 9 of a `name_to_search` buffer is a no-op. -/
theorem strncpy10_set9 (s : List Nat) : (strncpy10 s).set 9 0 = strncpy10 s := by
  unfold strncpy10
  rw [List.set_set]

/-- Byte 9 of every `name_to_search` buffer is `NUL`. -/
theorem strncpy10_get9 (s : List Nat) : (strncpy10 s)[9]? = some 0 := by
  have hlen : (strncpy10 s).length = 10 := strncpy10_length s
  rw [List.getElem?_eq_getElem (by omega)]
  congr 1
  unfold strncpy10
  rw [List.getElem_set_self]

/-- Decoding the name field of an encoded record recovers the name, for
names of 1–9 `NUL`-free bytes. -/
theorem name_in_line_encode (name tail : List Nat)
    (h9 : name.length ≤ 9) (hz : ∀ b ∈ name, b ≠ 0) :
    name_in_line (strncpy10 name ++ tail) = name := by
  unfold name_in_line
  rw [nameInLineBuf_of_field _ _ (strncpy10_length name), strncpy10_set9]
  rw [strncpy10_small name h9]
  rw [takeWhile_append_all _ _ _ (fun b hb => by simpa using hz b hb)]
  rw [takeWhile_replicate_zero, List.append_nil]

/-- `strncmp` of a buffer against itself is zero. -/
theorem strncmpAux_self (l : List Nat) : strncmpAux l l = 0 := by
  induction l with
  | nil => rfl
  | cons a as ih =>
    unfold strncmpAux
    by_cases ha : a = 0 <;> simp [ha, ih]

/-- The scanner matches a record written from the same search buffer. -/
theorem match_name_encode (name tail : List Nat) :
    match_name (strncpy10 name) (strncpy10 name ++ tail) = 1 := by
  unfold match_name
  have h9 : (strncpy10 name ++ tail).getD 9 0 = 0 := by
    rw [List.getD_eq_getElem?_getD,
      List.getElem?_append_left (by rw [strncpy10_length]; omega), strncpy10_get9]
    rfl
  rw [if_neg (not_not_intro h9)]
  have hbuf : nameInLineBuf (strncpy10 name ++ tail) = strncpy10 name := by
    rw [nameInLineBuf_of_field _ _ (strncpy10_length name), strncpy10_set9]
  rw [hbuf]
  have hcmp : strncmp (strncpy10 name) (strncpy10 name) 10 = 0 := strncmpAux_self _
  rw [if_neg (by simp [hcmp])]

/-- Writing at the end of the file appends the data. -/
theorem writeAt_append (c d : List Nat) : writeAt c c.length d = c ++ d := by
  unfold writeAt
  rw [List.take_length, List.drop_of_length_le (by omega)]
  simp

/-! ### Scan lemmas: the pure scan classifies what the loop does -/

/-- When the scan finds no matching record, the loop returns `0` and leaves
the file contents and fault schedule untouched. -/
theorem findLoop_notFound (p : List Nat) (d : Int) :
    ∀ (lines : List (List Nat)) (st : FileState),
      scanLines p lines = ScanOut.notFound →
      (findLoop p d st lines).1 = 0 ∧
      (findLoop p d st lines).2.contents = st.contents ∧
      (findLoop p d st lines).2.faults = st.faults := by
  intro lines
  induction lines with
  | nil =>
    intro st _
    simp [findLoop]
  | cons line rest ih =>
    intro st h
    simp only [scanLines] at h
    simp only [findLoop]
    by_cases h21 : line.length ≠ 21
    · rw [if_pos h21] at h ⊢
      exact ih _ h
    · rw [if_neg h21] at h ⊢
      by_cases hm : match_name p line = 1
      · rw [if_pos hm] at h
        by_cases hmin : get_score line = INT_MIN
        · rw [if_pos hmin] at h; simp at h
        · rw [if_neg hmin] at h; simp at h
      · rw [if_neg hm] at h ⊢
        exact ih _ h

/-- When the scan hits a matched record with a corrupt score field, the
loop returns `-1` and leaves the file contents and fault schedule
untouched. -/
theorem findLoop_corrupt (p : List Nat) (d : Int) :
    ∀ (lines : List (List Nat)) (st : FileState),
      scanLines p lines = ScanOut.corrupt →
      (findLoop p d st lines).1 = -1 ∧
      (findLoop p d st lines).2.contents = st.contents ∧
      (findLoop p d st lines).2.faults = st.faults := by
  intro lines
  induction lines with
  | nil =>
    intro st h
    simp [scanLines] at h
  | cons line rest ih =>
    intro st h
    simp only [scanLines] at h
    simp only [findLoop]
    by_cases h21 : line.length ≠ 21
    · rw [if_pos h21] at h ⊢
      exact ih _ h
    · rw [if_neg h21] at h ⊢
      by_cases hm : match_name p line = 1
      · rw [if_pos hm] at h
        rw [if_pos hm]
        by_cases hmin : get_score line = INT_MIN
        · rw [if_pos hmin]
          simp
        · rw [if_neg hmin] at h; simp at h
      · rw [if_neg hm] at h ⊢
        exact ih _ h

/-- When the scan finds the record with score `s` but the checked sum is
out of range, the loop returns `-1` with no write: contents and fault
schedule are untouched. -/
theorem findLoop_found_oob (p : List Nat) (d s : Int) :
    ∀ (lines : List (List Nat)) (st : FileState),
      scanLines p lines = ScanOut.found s → check_sum s d ≠ 1 →
      (findLoop p d st lines).1 = -1 ∧
      (findLoop p d st lines).2.contents = st.contents ∧
      (findLoop p d st lines).2.faults = st.faults := by
  intro lines
  induction lines with
  | nil =>
    intro st h _
    simp [scanLines] at h
  | cons line rest ih =>
    intro st h hcs
    simp only [scanLines] at h
    simp only [findLoop]
    by_cases h21 : line.length ≠ 21
    · rw [if_pos h21] at h ⊢
      exact ih _ h hcs
    · rw [if_neg h21] at h ⊢
      by_cases hm : match_name p line = 1
      · rw [if_pos hm] at h
        rw [if_pos hm]
        by_cases hmin : get_score line = INT_MIN
        · rw [if_pos hmin] at h; simp at h
        · rw [if_neg hmin] at h
          rw [if_neg hmin]
          have hs : get_score line = s := by simpa using h
          rw [if_neg (by rw [hs]; exact hcs)]
          simp
      · rw [if_neg hm] at h ⊢
        exact ih _ h hcs

/-! ### I/O primitive step lemmas -/

/-- A fault-free `fseek` to the start of the file. -/
theorem fseek_set_ok (st : FileState) (h : st.faults.headD false = false) :
    fseek st 0 Whence.set = (true, ⟨st.contents, 0, st.faults.tail⟩) := by
  unfold fseek popFault
  rw [h]
  simp

/-- A fault-free `fseek` to the end of the file. -/
theorem fseek_end_ok (st : FileState) (h : st.faults.headD false = false) :
    fseek st 0 Whence.end_ = (true, ⟨st.contents, st.contents.length, st.faults.tail⟩) := by
  unfold fseek popFault
  rw [h]
  simp

/-- A failing `fseek` only consumes its fault-schedule entry. -/
theorem fseek_fail (st : FileState) (off : Int) (w : Whence) (h : st.faults.headD false = true) :
    fseek st off w = (false, ⟨st.contents, st.pos, st.faults.tail⟩) := by
  unfold fseek popFault
  rw [h]
  simp

/-- A fault-free `fwrite` writes all bytes at the current position. -/
theorem fwrite_ok (st : FileState) (data : List Nat) (h : st.faults.headD false = false) :
    fwrite st data =
      (true, ⟨writeAt st.contents st.pos data, st.pos + data.length, st.faults.tail⟩) := by
  unfold fwrite popFault
  rw [h]
  simp

/-- On the error paths the file contents never change: `find_record`
returns `-1` when the scan classifies the file as corrupt at the matched
record or the checked sum is out of range, under any fault schedule. -/
theorem find_record_err (p : List Nat) (d : Int) (st : FileState)
    (h : scanLines p (splitLines st.contents) = ScanOut.corrupt ∨
         ∃ s, scanLines p (splitLines st.contents) = ScanOut.found s ∧ check_sum s d ≠ 1) :
    (find_record p d st).1 = -1 ∧ (find_record p d st).2.contents = st.contents := by
  simp only [find_record]
  by_cases hf : st.faults.headD false = true
  · rw [fseek_fail st 0 Whence.set hf]
    simp
  · have hf' : st.faults.headD false = false := by
      cases hx : st.faults.headD false
      · rfl
      · exact absurd hx hf
    rw [fseek_set_ok st hf']
    rw [if_neg (by simp)]
    rcases h with h | ⟨s, hs, hcs⟩
    · have hc := findLoop_corrupt p d (splitLines st.contents) ⟨st.contents, 0, st.faults.tail⟩ h
      exact ⟨hc.1, hc.2.1⟩
    · have hc := findLoop_found_oob p d s (splitLines st.contents)
        ⟨st.contents, 0, st.faults.tail⟩ hs hcs
      exact ⟨hc.1, hc.2.1⟩

/-- Shared error-path behaviour of `adjust_score`: a corrupt matched record
or an out-of-range sum yields failure with the record-error message and an
unchanged file, under any fault schedule. -/
theorem adjust_score_err (p : List Nat) (d : Int) (faults : List Bool) (file : List Nat)
    (hv : validate_name p = 1)
    (h : scanLines (strncpy10 p) (splitLines file) = ScanOut.corrupt ∨
         ∃ s, scanLines (strncpy10 p) (splitLines file) = ScanOut.found s ∧ check_sum s d ≠ 1) :
    adjust_score p d true faults file =
      ⟨0, some (handle_message "Error found in record\n"), file, true, true⟩ := by
  have hfr := find_record_err (strncpy10 p) d ⟨file, 0, faults⟩ h
  simp only [adjust_score]
  rw [if_neg (fun hc => hc hv), if_neg (by simp), if_pos hfr.1, hfr.2]

/-- Fault-free `write_score` in append position writes the name buffer and
the score field at the end of the file. -/
theorem write_score_append (c : List Nat) (pos : Nat) (nameBuf : List Nat) (v : Int)
    (hname : nameBuf.length = 10) :
    write_score ⟨c, pos, []⟩ nameBuf v Whence.end_ 0 =
      (1, ⟨c ++ nameBuf ++ score_string_bytes v,
           c.length + 10 + (score_string_bytes v).length, []⟩) := by
  have ht : nameBuf.take 10 = nameBuf := List.take_of_length_le (le_of_eq hname)
  simp only [write_score]
  rw [if_neg (not_lt.mpr (Int.natCast_nonneg _))]
  rw [fseek_end_ok ⟨c, pos, []⟩ rfl]
  rw [if_neg (by simp)]
  dsimp only [List.tail_nil]
  rw [ht, fwrite_ok ⟨c, c.length, []⟩ nameBuf rfl]
  rw [if_neg (by simp)]
  dsimp only [List.tail_nil]
  rw [writeAt_append]
  rw [fwrite_ok ⟨c ++ nameBuf, c.length + nameBuf.length, []⟩ (score_string_bytes v) rfl]
  rw [if_neg (by simp)]
  dsimp only [List.tail_nil]
  have h2 : c.length + nameBuf.length = (c ++ nameBuf).length := by
    simp
  rw [h2, writeAt_append]
  simp [hname]

/-- When the scan misses, a fault-free `find_record` returns `0` with the
file and the (empty) fault schedule untouched. -/
theorem find_record_notFound_nil (p : List Nat) (d : Int) (file : List Nat)
    (h : scanLines p (splitLines file) = ScanOut.notFound) :
    (find_record p d ⟨file, 0, []⟩).1 = 0 ∧
    (find_record p d ⟨file, 0, []⟩).2.contents = file ∧
    (find_record p d ⟨file, 0, []⟩).2.faults = [] := by
  simp only [find_record]
  rw [fseek_set_ok ⟨file, 0, []⟩ rfl]
  rw [if_neg (by simp)]
  dsimp only
  exact findLoop_notFound p d (splitLines file) ⟨file, 0, List.tail []⟩ h

/-- Names of at most 10 whitespace-free bytes pass validation. -/
theorem validate_name_ok (p : List Nat) (hlen : p.length ≤ 10)
    (hw : ∀ b ∈ p, isspaceB b = false) : validate_name p = 1 := by
  unfold validate_name
  rw [if_neg (by omega : ¬ p.length > 10)]
  rw [if_neg (show ¬ p.any isspaceB = true by
    intro hc
    obtain ⟨b, hb, hsp⟩ := List.any_eq_true.mp hc
    rw [hw b hb] at hsp
    cases hsp)]

/-! ### Stray-line and handle lemmas -/

/-- `getline` delimits a newline-terminated chunk with no interior newline
as a single line, for any accumulated prefix. -/
theorem splitLinesAux_line (rest : List Nat) :
    ∀ (s' : List Nat), 10 ∉ s' → ∀ cur,
      splitLinesAux cur (s' ++ 10 :: rest) =
        (cur.reverse ++ (s' ++ [10])) :: splitLines rest := by
  intro s'
  induction s' with
  | nil =>
    intro _ cur
    rw [List.nil_append]
    simp only [splitLinesAux]
    simp [splitLines]
  | cons b s' ih =>
    intro h cur
    have hb : ¬ b = 10 := by
      intro hb
      exact h (by simp [hb])
    rw [List.cons_append]
    simp only [splitLinesAux]
    rw [if_neg hb]
    rw [ih (by intro hx; exact h (by simp [hx])) (b :: cur)]
    simp

/-- A newline-terminated chunk with no interior newline is one line of the
file, and the remaining bytes split independently. -/
theorem splitLines_stray (s' rest : List Nat) (h : 10 ∉ s') :
    splitLines (s' ++ 10 :: rest) = (s' ++ [10]) :: splitLines rest := by
  have := splitLinesAux_line rest s' h []
  simpa [splitLines] using this

/-- `adjust_score` closes the file handle exactly when it opened one. -/
theorem adjust_score_closed_eq_opened (p : List Nat) (d : Int) (ok : Bool)
    (faults : List Bool) (file : List Nat) :
    (adjust_score p d ok faults file).closed = (adjust_score p d ok faults file).opened := by
  simp only [adjust_score]
  repeat' split
  all_goals rfl

/-! ### Claim theorems -/

/-- C1: for every name of 1–9 non-whitespace ASCII characters and every
score in `[-999999999, 2147483647]`, encoding the pair as a 21-byte record
(10-byte null-padded name field, 10-byte decimal score field, newline) and
then decoding that record's name and score fields returns exactly the
original name and score (and the scanner matches the record). -/
theorem roundtrip_record_codec (name : List Nat) (score : Int)
    (hlen1 : 1 ≤ name.length) (hlen9 : name.length ≤ 9)
    (hchars : ∀ b ∈ name, b ≠ 0 ∧ b < 128 ∧ isspaceB b = false)
    (hlo : SCORE_LOW_BOUND ≤ score) (hhi : score ≤ INT_MAX) :
    (encode_record (strncpy10 name) score).length = 21 ∧
    name_in_line (encode_record (strncpy10 name) score) = name ∧
    get_score (encode_record (strncpy10 name) score) = score ∧
    match_name (strncpy10 name) (encode_record (strncpy10 name) score) = 1 := by
  have h10 : (strncpy10 name).take 10 = strncpy10 name :=
    List.take_of_length_le (le_of_eq (strncpy10_length name))
  unfold encode_record
  rw [h10]
  refine ⟨?_, name_in_line_encode name _ hlen9 (fun b hb => (hchars b hb).1),
          get_score_encode _ score (strncpy10_length name) hlo hhi,
          match_name_encode name _⟩
  rw [List.length_append, strncpy10_length,
      score_string_bytes_length score (intToDecimal_length_le score hlo hhi)]

/-- Witness for C1 at name `"alice"` and score `100`. -/
theorem roundtrip_record_codec_witness :
    (1 ≤ aliceName.length) ∧ (aliceName.length ≤ 9) ∧
    (∀ b ∈ aliceName, b ≠ 0 ∧ b < 128 ∧ isspaceB b = false) ∧
    (SCORE_LOW_BOUND ≤ (100 : Int)) ∧ ((100 : Int) ≤ INT_MAX) ∧
    ((encode_record (strncpy10 aliceName) 100).length = 21 ∧
      name_in_line (encode_record (strncpy10 aliceName) 100) = aliceName ∧
      get_score (encode_record (strncpy10 aliceName) 100) = 100 ∧
      match_name (strncpy10 aliceName) (encode_record (strncpy10 aliceName) 100) = 1) :=
  ⟨by decide, by decide, by decide, by decide, by decide,
   roundtrip_record_codec aliceName 100 (by decide) (by decide) (by decide)
     (by decide) (by decide)⟩

/-- C2: for every file in which the scan locates player `p`'s record with
stored score `s`, and every `int` delta whose widened sum with `s` exceeds
`INT_MAX` or falls below `SCORE_LOW_BOUND`, `adjust_score` fails and
performs no write: the whole file (hence the stored record) is unchanged,
under any fault schedule. -/
theorem score_out_of_range_no_write (p : List Nat) (s d : Int)
    (faults : List Bool) (file : List Nat)
    (hv : validate_name p = 1)
    (hscan : scan_score (strncpy10 p) file = ScanOut.found s)
    (hdlo : INT_MIN ≤ d) (hdhi : d ≤ INT_MAX)
    (hoob : s + d > INT_MAX ∨ s + d < SCORE_LOW_BOUND) :
    adjust_score p d true faults file =
      ⟨0, some (handle_message "Error found in record\n"), file, true, true⟩ := by
  unfold scan_score at hscan
  apply adjust_score_err p d faults file hv
  right
  refine ⟨s, hscan, ?_⟩
  have hcs : check_sum s d = 0 := by
    simp only [check_sum]
    rcases hoob with h | h
    · rw [if_pos h]
    · rw [if_neg (by simp only [INT_MAX, SCORE_LOW_BOUND] at h ⊢; omega), if_pos h]
  omega

/-- Witness for C2: `"alice"` stored at `INT_MAX`, delta `1`. -/
theorem score_out_of_range_no_write_witness :
    (validate_name aliceName = 1) ∧
    (scan_score (strncpy10 aliceName) aliceFileMax = ScanOut.found 2147483647) ∧
    (INT_MIN ≤ (1 : Int)) ∧ ((1 : Int) ≤ INT_MAX) ∧
    ((2147483647 : Int) + 1 > INT_MAX ∨ (2147483647 : Int) + 1 < SCORE_LOW_BOUND) ∧
    adjust_score aliceName 1 true [] aliceFileMax =
      ⟨0, some (handle_message "Error found in record\n"), aliceFileMax, true, true⟩ :=
  ⟨by decide, by decide, by decide, by decide, by decide,
   score_out_of_range_no_write aliceName 2147483647 1 [] aliceFileMax
     (by decide) (by decide) (by decide) (by decide) (by decide)⟩

/-- C3 counterexample: the file is exactly the claim's scenario — a single
21-byte line whose name field is `"alice"` (null-padded, so the scanner
matches it) and whose score field is `"100"` followed by seven spaces —
yet adjusting `"alice"` by `50` does NOT succeed: `strtol` leaves the pad
spaces as trailing garbage, so the matched record's score field does not
decode (`get_score` yields the `INT_MIN` sentinel), the call returns `0`
with the record-error message, and the file is left byte-for-byte
unchanged — refuting the claim that it succeeds with stored score `150`. -/
theorem space_padded_scenario_fails :
    aliceFile100Spaces.length = 21 ∧
    splitLines aliceFile100Spaces = [aliceFile100Spaces] ∧
    match_name (strncpy10 aliceName) aliceFile100Spaces = 1 ∧
    get_score aliceFile100Spaces = INT_MIN ∧
    (adjust_score aliceName 50 true [] aliceFile100Spaces).ret ≠ 1 ∧
    adjust_score aliceName 50 true [] aliceFile100Spaces =
      ⟨0, some (handle_message "Error found in record\n"), aliceFile100Spaces, true, true⟩ :=
  ⟨by decide, by decide, by decide, by decide, by decide, by decide⟩

/-- C3 (amended): on the file whose only record has name field `"alice"`
and score field `"100"` padded with `NUL` bytes (the rendering this
program's own writes produce), adjusting `"alice"` by `50` succeeds and
rewrites the record in place with score `150`: the name field (bytes 0–9)
is rewritten identically at the same offset, the score field decodes to
`150`, and the file length is unchanged. -/
theorem nul_padded_scenario_succeeds :
    adjust_score aliceName 50 true [] aliceFile100 =
      ⟨1, none, aliceField ++ [49, 53, 48, 0, 0, 0, 0, 0, 0, 0, 10], true, true⟩ ∧
    (aliceField ++ [49, 53, 48, 0, 0, 0, 0, 0, 0, 0, 10]).take 10 = aliceFile100.take 10 ∧
    (aliceField ++ [49, 53, 48, 0, 0, 0, 0, 0, 0, 0, 10]).length = aliceFile100.length ∧
    get_score (aliceField ++ [49, 53, 48, 0, 0, 0, 0, 0, 0, 0, 10]) = 150 :=
  ⟨by decide, by decide, by decide, by decide⟩

/-- C4 counterexample: the 10-character whitespace-free name
`"abcdefghij"` is NOT rejected — `validate_name` accepts it (the source
checks `len > 10`, not `len > 9`), the file IS opened, and the call
succeeds, refuting “names longer than 9 characters are rejected with
InvalidName before any file I/O”. -/
theorem ten_char_name_not_rejected :
    validate_name [97, 98, 99, 100, 101, 102, 103, 104, 105, 106] = 1 ∧
    (adjust_score [97, 98, 99, 100, 101, 102, 103, 104, 105, 106] 0 true [] []).opened = true ∧
    (adjust_score [97, 98, 99, 100, 101, 102, 103, 104, 105, 106] 0 true [] []).ret = 1 :=
  ⟨by decide, by decide, by decide⟩

/-- C4 (amended): for every player name longer than 10 characters or
containing a whitespace byte, `adjust_score` rejects it with the invalid
name message and performs no file I/O — the file is never opened and its
contents are returned unchanged. -/
theorem invalid_name_no_io (p : List Nat) (d : Int) (ok : Bool)
    (faults : List Bool) (file : List Nat)
    (h : 10 < p.length ∨ ∃ b ∈ p, isspaceB b = true) :
    adjust_score p d ok faults file =
      ⟨0, some (handle_message "Player name invalid\n"), file, false, false⟩ := by
  have hv : validate_name p = 0 := by
    unfold validate_name
    by_cases hlen : p.length > 10
    · rw [if_pos hlen]
    · rw [if_neg hlen]
      have hany : p.any isspaceB = true := by
        rcases h with h | ⟨b, hb, hsp⟩
        · omega
        · exact List.any_eq_true.mpr ⟨b, hb, hsp⟩
      rw [if_pos hany]
  simp only [adjust_score]
  rw [if_pos (by rw [hv]; decide)]

/-- Witness for C4 (amended) at the 11-character name `"abcdefghijk"`. -/
theorem invalid_name_no_io_witness :
    (10 < ([97, 98, 99, 100, 101, 102, 103, 104, 105, 106, 107] : List Nat).length ∨
      ∃ b ∈ ([97, 98, 99, 100, 101, 102, 103, 104, 105, 106, 107] : List Nat),
        isspaceB b = true) ∧
    adjust_score [97, 98, 99, 100, 101, 102, 103, 104, 105, 106, 107] 7 true [] [] =
      ⟨0, some (handle_message "Player name invalid\n"), [], false, false⟩ :=
  ⟨by decide,
   invalid_name_no_io [97, 98, 99, 100, 101, 102, 103, 104, 105, 106, 107] 7 true [] []
     (by decide)⟩

/-- C5 counterexample: the input `"9999999999x"` has trailing non-numeric
characters after its numeric prefix, yet the parser classifies it as
Overflow, not Invalid — the range check precedes the trailing-garbage
check, refuting “Invalid regardless of the numeric prefix's value”. -/
theorem trailing_garbage_overflow_precedence :
    (score_strtol 0 [57, 57, 57, 57, 57, 57, 57, 57, 57, 57, 120]).1 = ScoreErrno.overflow ∧
    (score_strtol 0 [57, 57, 57, 57, 57, 57, 57, 57, 57, 57, 120]).1 ≠ ScoreErrno.invalid :=
  ⟨by decide, by decide⟩

/-- C5 (amended): the score parser classifies as Invalid every empty
input, every input starting with whitespace, and every input with trailing
non-numeric characters whose numeric prefix lies within
`[SCORE_LOW_BOUND, INT_MAX]`; when the prefix is out of that range the
range classification (Overflow/Underflow) takes precedence. -/
theorem parser_invalid_cases (s : List Nat)
    (h : s = [] ∨ isspaceB (s.headD 0) = true ∨
         ((strtol10 s).2.1 ≠ [] ∧ SCORE_LOW_BOUND ≤ (strtol10 s).1 ∧
           (strtol10 s).1 ≤ INT_MAX)) :
    (score_strtol 0 s).1 = ScoreErrno.invalid := by
  rcases h with h | h | ⟨hrest, hlo, hhi⟩
  · subst h; rfl
  · unfold score_strtol
    rw [List.headD_eq_head?_getD] at h
    rw [if_pos (by simp [h])]
  · simp only [score_strtol]
    by_cases hg : (decide (s.headD 0 = 0) || isspaceB (s.headD 0)) = true
    · rw [if_pos hg]
    · rw [if_neg hg]
      rw [if_neg (by
        simp only [INT_MAX, LONG_MAX] at hhi ⊢
        rintro (hc | ⟨_, hc⟩) <;> omega)]
      rw [if_neg (by
        simp only [SCORE_LOW_BOUND, LONG_MIN] at hlo ⊢
        rintro (hc | ⟨_, hc⟩) <;> omega)]
      rw [if_pos hrest]

/-- Witness for C5 (amended) at the input `"100 "` (an in-range prefix
with a trailing space). -/
theorem parser_invalid_cases_witness :
    (([49, 48, 48, 32] : List Nat) = [] ∨
      isspaceB (([49, 48, 48, 32] : List Nat).headD 0) = true ∨
      ((strtol10 [49, 48, 48, 32]).2.1 ≠ [] ∧
        SCORE_LOW_BOUND ≤ (strtol10 [49, 48, 48, 32]).1 ∧
        (strtol10 [49, 48, 48, 32]).1 ≤ INT_MAX)) ∧
    (score_strtol 0 [49, 48, 48, 32]).1 = ScoreErrno.invalid :=
  ⟨by decide, parser_invalid_cases [49, 48, 48, 32] (by decide)⟩

/-- C6: whenever the first matching 21-byte line's score field does not
parse as a valid in-range integer, the scan classifies the file as corrupt,
`adjust_score` fails with the record-error message, and no write of any
kind is performed — the file is returned unchanged, under any fault
schedule. -/
theorem corrupt_matched_record_aborts (p : List Nat) (d : Int)
    (faults : List Bool) (file : List Nat)
    (hv : validate_name p = 1)
    (hscan : scan_score (strncpy10 p) file = ScanOut.corrupt) :
    adjust_score p d true faults file =
      ⟨0, some (handle_message "Error found in record\n"), file, true, true⟩ := by
  unfold scan_score at hscan
  exact adjust_score_err p d faults file hv (Or.inl hscan)

/-- Witness for C6: `"alice"`'s record with score field `"abc"`. -/
theorem corrupt_matched_record_aborts_witness :
    (validate_name aliceName = 1) ∧
    (scan_score (strncpy10 aliceName) aliceFileCorrupt = ScanOut.corrupt) ∧
    adjust_score aliceName 5 true [] aliceFileCorrupt =
      ⟨0, some (handle_message "Error found in record\n"), aliceFileCorrupt, true, true⟩ :=
  ⟨by decide, by decide,
   corrupt_matched_record_aborts aliceName 5 [] aliceFileCorrupt (by decide) (by decide)⟩

/-- C7 counterexample: on an empty file, adjusting `"bob"` by
`-1000000000` appends a record whose score field decodes to `-100000000`,
not the delta itself — `snprintf` truncates the 11-character rendering to
10 bytes — refuting “the appended record's score field decodes back to
delta for every int delta”. -/
theorem append_truncates_large_negative_delta :
    (adjust_score bobName (-1000000000) true [] []).ret = 1 ∧
    get_score ((adjust_score bobName (-1000000000) true [] []).file) = -100000000 ∧
    get_score ((adjust_score bobName (-1000000000) true [] []).file) ≠ -1000000000 :=
  ⟨by decide, by decide, by decide⟩

/-- C7 (amended): for every valid name of 1–9 non-whitespace bytes and
every delta in `[SCORE_LOW_BOUND, INT_MAX]`, when the scan finds no
matching record a fault-free `adjust_score` appends exactly one new
21-byte record at end-of-file whose name field is the given name and whose
score field decodes back to delta itself. -/
theorem append_on_miss (name : List Nat) (d : Int) (file : List Nat)
    (hlen1 : 1 ≤ name.length) (hlen9 : name.length ≤ 9)
    (hchars : ∀ b ∈ name, b ≠ 0 ∧ isspaceB b = false)
    (hscan : scan_score (strncpy10 name) file = ScanOut.notFound)
    (hlo : SCORE_LOW_BOUND ≤ d) (hhi : d ≤ INT_MAX) :
    adjust_score name d true [] file =
      ⟨1, none, file ++ (strncpy10 name ++ score_string_bytes d), true, true⟩ ∧
    (strncpy10 name ++ score_string_bytes d).length = 21 ∧
    name_in_line (strncpy10 name ++ score_string_bytes d) = name ∧
    get_score (strncpy10 name ++ score_string_bytes d) = d := by
  unfold scan_score at hscan
  have hfr := find_record_notFound_nil (strncpy10 name) d file hscan
  constructor
  · simp only [adjust_score]
    rw [if_neg (fun hc =>
      hc (validate_name_ok name (by omega) (fun b hb => (hchars b hb).2)))]
    rw [if_neg (by simp)]
    rw [if_neg (by rw [hfr.1]; decide)]
    rw [if_pos hfr.1]
    rw [fseek_end_ok _ (by rw [hfr.2.2]; rfl)]
    rw [if_neg (by simp)]
    dsimp only
    rw [hfr.2.1, hfr.2.2]
    simp only [List.tail_nil]
    rw [write_score_append file file.length (strncpy10 name) d (strncpy10_length name)]
    rw [if_neg (by simp)]
    dsimp only
    simp [List.append_assoc]
  · refine ⟨?_, name_in_line_encode name _ hlen9 (fun b hb => (hchars b hb).1),
            get_score_encode _ d (strncpy10_length name) hlo hhi⟩
    rw [List.length_append, strncpy10_length,
        score_string_bytes_length d (intToDecimal_length_le d hlo hhi)]

/-- Witness for C7 (amended): empty file, `"bob"`, delta `-5`. -/
theorem append_on_miss_witness :
    (1 ≤ bobName.length) ∧ (bobName.length ≤ 9) ∧
    (∀ b ∈ bobName, b ≠ 0 ∧ isspaceB b = false) ∧
    (scan_score (strncpy10 bobName) [] = ScanOut.notFound) ∧
    (SCORE_LOW_BOUND ≤ (-5 : Int)) ∧ ((-5 : Int) ≤ INT_MAX) ∧
    (adjust_score bobName (-5) true [] [] =
      ⟨1, none, [] ++ (strncpy10 bobName ++ score_string_bytes (-5)), true, true⟩ ∧
    (strncpy10 bobName ++ score_string_bytes (-5)).length = 21 ∧
    name_in_line (strncpy10 bobName ++ score_string_bytes (-5)) = bobName ∧
    get_score (strncpy10 bobName ++ score_string_bytes (-5)) = -5) :=
  ⟨by decide, by decide, by decide, by decide, by decide, by decide,
   append_on_miss bobName (-5) [] (by decide) (by decide) (by decide)
     (by decide) (by decide) (by decide)⟩

/-- C8: a stray line of byte length other than 21 — a newline-terminated
chunk with no interior newline — is one line of the file, the scan skips
it without decoding and continues with the remaining lines unchanged, and
in particular a matching 21-byte record after the stray line is still
found. -/
theorem stray_line_skipped (p s' rest : List Nat)
    (hnl : 10 ∉ s') (hlen : s'.length + 1 ≠ 21) :
    splitLines (s' ++ 10 :: rest) = (s' ++ [10]) :: splitLines rest ∧
    scan_score p (s' ++ 10 :: rest) = scan_score p rest ∧
    (∀ s, scan_score p rest = ScanOut.found s →
      scan_score p (s' ++ 10 :: rest) = ScanOut.found s) := by
  have hsplit := splitLines_stray s' rest hnl
  have hscan : scan_score p (s' ++ 10 :: rest) = scan_score p rest := by
    unfold scan_score
    rw [hsplit]
    simp only [scanLines]
    rw [if_pos (by simpa using hlen)]
  exact ⟨hsplit, hscan, fun s hs => hscan.trans hs⟩

/-- Witness for C8: the stray line `"xx\n"` before `"alice"`'s record. -/
theorem stray_line_skipped_witness :
    ((10 : Nat) ∉ ([120, 120] : List Nat)) ∧
    (([120, 120] : List Nat).length + 1 ≠ 21) ∧
    (splitLines ([120, 120] ++ 10 :: aliceFile100) =
      ([120, 120, 10] : List Nat) :: splitLines aliceFile100 ∧
    scan_score (strncpy10 aliceName) ([120, 120] ++ 10 :: aliceFile100) =
      scan_score (strncpy10 aliceName) aliceFile100 ∧
    (∀ s, scan_score (strncpy10 aliceName) aliceFile100 = ScanOut.found s →
      scan_score (strncpy10 aliceName) ([120, 120] ++ 10 :: aliceFile100) =
        ScanOut.found s)) :=
  ⟨by decide, by decide,
   stray_line_skipped (strncpy10 aliceName) [120, 120] aliceFile100 (by decide) (by decide)⟩

/-- C9: on every execution path of `adjust_score` in which the file is
opened — success, corrupt-record error, seek error, and write error alike,
over all fault schedules — the file handle is closed before the call
returns. -/
theorem file_handle_closed (p : List Nat) (d : Int) (ok : Bool)
    (faults : List Bool) (file : List Nat)
    (h : (adjust_score p d ok faults file).opened = true) :
    (adjust_score p d ok faults file).closed = true := by
  rw [adjust_score_closed_eq_opened]
  exact h

/-- Witness for C9 on a successful run. -/
theorem file_handle_closed_witness :
    (adjust_score bobName 5 true [] []).opened = true ∧
    (adjust_score bobName 5 true [] []).closed = true :=
  ⟨by decide, file_handle_closed bobName 5 true [] [] (by decide)⟩

/-- C10: a name of exactly 10 non-whitespace bytes passes validation and
is silently truncated to its first 9 bytes before searching and writing,
so two distinct 10-byte names sharing the same first 9 bytes drive
`adjust_score` identically on every file. -/
theorem ten_char_name_truncation (n1 n2 : List Nat) (d : Int) (ok : Bool)
    (faults : List Bool) (file : List Nat)
    (hl1 : n1.length = 10) (hl2 : n2.length = 10)
    (hw1 : ∀ b ∈ n1, isspaceB b = false) (hw2 : ∀ b ∈ n2, isspaceB b = false)
    (hpre : n1.take 9 = n2.take 9) :
    validate_name n1 = 1 ∧ validate_name n2 = 1 ∧
    strncpy10 n1 = n1.take 9 ++ [0] ∧
    strncpy10 n1 = strncpy10 n2 ∧
    adjust_score n1 d ok faults file = adjust_score n2 d ok faults file := by
  have hv1 := validate_name_ok n1 (by omega) hw1
  have hv2 := validate_name_ok n2 (by omega) hw2
  have ht1 := strncpy10_truncates n1 (by omega)
  have ht2 := strncpy10_truncates n2 (by omega)
  have hst : strncpy10 n1 = strncpy10 n2 := by rw [ht1, ht2, hpre]
  refine ⟨hv1, hv2, ht1, hst, ?_⟩
  simp only [adjust_score, hv1, hv2, hst]

/-- Witness for C10 at `"abcdefghi0"` and `"abcdefghi1"`. -/
theorem ten_char_name_truncation_witness :
    (([97, 98, 99, 100, 101, 102, 103, 104, 105, 48] : List Nat).length = 10) ∧
    (([97, 98, 99, 100, 101, 102, 103, 104, 105, 49] : List Nat).length = 10) ∧
    (∀ b ∈ ([97, 98, 99, 100, 101, 102, 103, 104, 105, 48] : List Nat),
      isspaceB b = false) ∧
    (∀ b ∈ ([97, 98, 99, 100, 101, 102, 103, 104, 105, 49] : List Nat),
      isspaceB b = false) ∧
    (([97, 98, 99, 100, 101, 102, 103, 104, 105, 48] : List Nat).take 9 =
      ([97, 98, 99, 100, 101, 102, 103, 104, 105, 49] : List Nat).take 9) ∧
    (validate_name [97, 98, 99, 100, 101, 102, 103, 104, 105, 48] = 1 ∧
      validate_name [97, 98, 99, 100, 101, 102, 103, 104, 105, 49] = 1 ∧
      strncpy10 [97, 98, 99, 100, 101, 102, 103, 104, 105, 48] =
        ([97, 98, 99, 100, 101, 102, 103, 104, 105, 48] : List Nat).take 9 ++ [0] ∧
      strncpy10 [97, 98, 99, 100, 101, 102, 103, 104, 105, 48] =
        strncpy10 [97, 98, 99, 100, 101, 102, 103, 104, 105, 49] ∧
      adjust_score [97, 98, 99, 100, 101, 102, 103, 104, 105, 48] 3 true [] aliceFile100 =
        adjust_score [97, 98, 99, 100, 101, 102, 103, 104, 105, 49] 3 true [] aliceFile100) :=
  ⟨by decide, by decide, by decide, by decide, by decide,
   ten_char_name_truncation [97, 98, 99, 100, 101, 102, 103, 104, 105, 48]
     [97, 98, 99, 100, 101, 102, 103, 104, 105, 49] 3 true [] aliceFile100
     (by decide) (by decide) (by decide) (by decide) (by decide)⟩
